import Mathlib

/-!
Shallow embedding of the mocrelay relay server (Go) for checking its
natural-language specification.

The repository contains several generations of the same functionality:
* package `nostr` (src/nostr/client_msg.go and the second part of
  src/utils.go): `ReqFilterEventMatcher` and the counted matcher set
  `EventCountMatchers`;
* package `mocrelay` (src/data_structure.go parts 1 and 3, first part of
  src/utils.go): validators, `Event.UnmarshalJSON`, `randCache`, `skipList`;
* package `main` (src/req_filter.go, src/entity.go, src/relay.go): the
  `Filter` / `FilterCounter` machinery and the websocket handlers.

Each Go package is embedded in a Lean namespace of the same flavour.
Go machine integers (int64) are modelled as `Int`; string length is the
character count, which agrees with Go byte length on the ASCII data these
functions handle (hex strings, tag names, JSON keys).
-/

namespace nostr

/-- Go `type Tag []string` (package nostr). -/
abbrev Tag := List String

/-- Go `type Event struct` (package nostr); field layout taken from the
construction sites in src/unnamed/part_000 and the matcher in src/utils.go. -/
structure Event where
  ID : String
  Pubkey : String
  CreatedAt : Int
  Kind : Int
  Tags : List Tag
  Content : String
  Sig : String
  deriving Repr, DecidableEq

/-- Go `type ReqFilter struct` (package nostr), as used by
`ReqFilterEventMatcher.Match` in src/utils.go: all fields are nil-able
pointers; the tag map is an association list. -/
structure ReqFilter where
  IDs : Option (List String) := none
  Authors : Option (List String) := none
  Kinds : Option (List Int) := none
  Tags : Option (List (String × List String)) := none
  Since : Option Int := none
  Until : Option Int := none
  Limit : Option Int := none
  deriving Repr, DecidableEq

/-- The innermost closure of the tag block of `ReqFilterEventMatcher.Match`:
`len(tagArr) >= 1 && tagArr[0] == string(tag[1]) && (len(tagArr) == 1 || strings.HasPrefix(tagArr[1], v))`.
`x` is `string(tag[1])`, the one-character string after the `#` of the map key. -/
def tagArrMatch (x v : String) (tagArr : Tag) : Bool :=
  decide (1 ≤ tagArr.length) && (tagArr.headD "" == x) &&
    (tagArr.length == 1 || v.isPrefixOf (tagArr.getD 1 ""))

/-- One iteration of `for tag, vs := range *m.f.Tags` in
`ReqFilterEventMatcher.Match`: some listed value `v` is matched by some
event tag array. -/
def tagEntryMatch (event : Event) (tagKey : String) (vs : List String) : Bool :=
  vs.any fun v => event.Tags.any fun tagArr => tagArrMatch (tagKey.drop 1) v tagArr

/-- The `m.f.IDs != nil` block of `ReqFilterEventMatcher.Match`. -/
def matchIDs (f : ReqFilter) (event : Event) : Bool :=
  match f.IDs with
  | none => true
  | some ids => ids.any fun id => id.isPrefixOf event.ID

/-- The `m.f.Kinds != nil` block of `ReqFilterEventMatcher.Match`. -/
def matchKinds (f : ReqFilter) (event : Event) : Bool :=
  match f.Kinds with
  | none => true
  | some kinds => kinds.any fun kind => event.Kind == kind

/-- The `m.f.Authors != nil` block of `ReqFilterEventMatcher.Match`. -/
def matchAuthors (f : ReqFilter) (event : Event) : Bool :=
  match f.Authors with
  | none => true
  | some authors => authors.any fun author => author.isPrefixOf event.Pubkey

/-- The `m.f.Tags != nil` block of `ReqFilterEventMatcher.Match`:
a conjunction over all entries of the tag map. -/
def matchTags (f : ReqFilter) (event : Event) : Bool :=
  match f.Tags with
  | none => true
  | some tags => tags.all fun entry => tagEntryMatch event entry.1 entry.2

/-- The `m.f.Since != nil` block of `ReqFilterEventMatcher.Match`:
`*m.f.Since <= event.CreatedAt`. -/
def matchSince (f : ReqFilter) (event : Event) : Bool :=
  match f.Since with
  | none => true
  | some since => decide (since ≤ event.CreatedAt)

/-- The `m.f.Until != nil` block of `ReqFilterEventMatcher.Match`:
`event.CreatedAt <= *m.f.Until`. -/
def matchUntil (f : ReqFilter) (event : Event) : Bool :=
  match f.Until with
  | none => true
  | some until_ => decide (event.CreatedAt ≤ until_)

/-- Go `func (m *ReqFilterEventMatcher) Match(event *Event) bool`
(src/utils.go): the conjunction of all present field predicates. -/
def filterMatch (f : ReqFilter) (event : Event) : Bool :=
  matchIDs f event && matchKinds f event && matchAuthors f event &&
    matchTags f event && matchSince f event && matchUntil f event

/-- Go `type ReqFilterEventMatcher struct` (src/utils.go): a filter plus a
monotone match counter. -/
structure ReqFilterEventMatcher where
  cnt : Int
  f : ReqFilter
  deriving Repr, DecidableEq

/-- Go `func NewReqFilterMatcher(filter *ReqFilter)`. -/
def NewReqFilterMatcher (f : ReqFilter) : ReqFilterEventMatcher :=
  { cnt := 0, f := f }

/-- Go `func (m *ReqFilterEventMatcher) Match(event *Event) bool`. -/
def ReqFilterEventMatcher.Match (m : ReqFilterEventMatcher) (event : Event) : Bool :=
  filterMatch m.f event

/-- Go `func (m *ReqFilterEventMatcher) CountMatch(event *Event) bool`:
returns the pure match result and the updated matcher
(`if match, m.cnt++`). -/
def ReqFilterEventMatcher.CountMatch (m : ReqFilterEventMatcher) (event : Event) :
    Bool × ReqFilterEventMatcher :=
  let mtch := m.Match event
  if mtch then (mtch, { m with cnt := m.cnt + 1 }) else (mtch, m)

/-- Go `func (m *ReqFilterEventMatcher) Count() int64`. -/
def ReqFilterEventMatcher.Count (m : ReqFilterEventMatcher) : Int := m.cnt

/-- Go `func (m *ReqFilterEventMatcher) Done() bool`:
`m.f.Limit != nil && *m.f.Limit <= m.cnt`. -/
def ReqFilterEventMatcher.Done (m : ReqFilterEventMatcher) : Bool :=
  match m.f.Limit with
  | none => false
  | some limit => decide (limit ≤ m.cnt)

/-- Go `type EventCountMatchers[T EventCountMatcher] []T`, instantiated at
`T = *ReqFilterEventMatcher` as in `NewReqFiltersEventMatchers`. -/
abbrev EventCountMatchers := List ReqFilterEventMatcher

/-- Go `func (m EventCountMatchers[T]) Match(event *Event) bool`:
`match = mm.Match(event) || match` over all members. -/
def EventCountMatchers.Match (ms : EventCountMatchers) (event : Event) : Bool :=
  ms.foldl (fun mtch mm => mm.Match event || mtch) false

/-- Go `func (m EventCountMatchers[T]) CountMatch(event *Event) bool`:
`match = mm.CountMatch(event) || match` over all members; the left operand
is evaluated for every member, so every inner counter is updated. The
updated matchers are returned alongside the boolean. -/
def EventCountMatchers.CountMatch (ms : EventCountMatchers) (event : Event) :
    Bool × EventCountMatchers :=
  ms.foldl
    (fun acc mm =>
      let r := mm.CountMatch event
      (r.1 || acc.1, acc.2 ++ [r.2]))
    (false, [])

/-- Go `func (m EventCountMatchers[T]) Count() int64`:
`ret = max(ret, mm.Count())` starting from `0`. -/
def EventCountMatchers.Count (ms : EventCountMatchers) : Int :=
  ms.foldl (fun ret mm => max ret mm.Count) 0

/-- Go `func (m EventCountMatchers[T]) Done() bool`:
`done = done && mm.Done()` starting from `true`. -/
def EventCountMatchers.Done (ms : EventCountMatchers) : Bool :=
  ms.foldl (fun done mm => done && mm.Done) true

/-- Go `func NewReqFiltersEventMatchers(filters []*ReqFilter)`. -/
def NewReqFiltersEventMatchers (filters : List ReqFilter) : EventCountMatchers :=
  filters.map NewReqFilterMatcher

end nostr

namespace relayMain

/-- Go `type EventJSON struct` (src/entity.go); the event shape used by the
package-main filter and relay code. -/
structure EventJSON where
  ID : String
  Pubkey : String
  CreatedAt : Int
  Kind : Int
  Tags : List (List String)
  Content : String
  Sig : String
  deriving Repr, DecidableEq

/-- Go `type FilterJSON struct` (src/entity.go and the copy in
src/data_structure.go): all fields are nil-able pointers. -/
structure FilterJSON where
  IDs : Option (List String) := none
  Authors : Option (List String) := none
  Kinds : Option (List Int) := none
  Etags : Option (List String) := none
  Ptags : Option (List String) := none
  Since : Option Int := none
  Until : Option Int := none
  Limit : Option Int := none
  deriving Repr, DecidableEq

/-- Go `type Filter struct` embeds `*FilterJSON` (src/req_filter.go,
src/entity.go); a constructed filter is always non-nil. -/
structure Filter where
  FilterJSON : FilterJSON
  deriving Repr, DecidableEq

/-- Go `func (fil *Filter) MatchIDs(event *Event) bool`. -/
def Filter.MatchIDs (fil : Filter) (event : EventJSON) : Bool :=
  match fil.FilterJSON.IDs with
  | none => true
  | some ids => ids.any fun pfx => pfx.isPrefixOf event.ID

/-- Go `func (fil *Filter) MatchAuthors(event *Event) bool`. -/
def Filter.MatchAuthors (fil : Filter) (event : EventJSON) : Bool :=
  match fil.FilterJSON.Authors with
  | none => true
  | some authors => authors.any fun pfx => pfx.isPrefixOf event.Pubkey

/-- Go `func (fil *Filter) MatchKinds(event *Event) bool`. -/
def Filter.MatchKinds (fil : Filter) (event : EventJSON) : Bool :=
  match fil.FilterJSON.Kinds with
  | none => true
  | some kinds => kinds.any fun k => event.Kind == k

/-- Go `func (fil *Filter) MatchEtags(event *Event) bool`: tags shorter than
two elements are skipped by the `continue`. -/
def Filter.MatchEtags (fil : Filter) (event : EventJSON) : Bool :=
  match fil.FilterJSON.Etags with
  | none => true
  | some etags => etags.any fun id => event.Tags.any fun tag =>
      decide (2 ≤ tag.length) && tag.headD "" == "e" && id.isPrefixOf (tag.getD 1 "")

/-- Go `func (fil *Filter) MatchPtags(event *Event) bool`. -/
def Filter.MatchPtags (fil : Filter) (event : EventJSON) : Bool :=
  match fil.FilterJSON.Ptags with
  | none => true
  | some ptags => ptags.any fun id => event.Tags.any fun tag =>
      decide (2 ≤ tag.length) && tag.headD "" == "p" && id.isPrefixOf (tag.getD 1 "")

/-- Go `func (fil *Filter) MatchSince(event *Event) bool`
(src/req_filter.go line 155 and src/entity.go line 570):
`event.CreatedAt > *fil.Since` - a strict bound. -/
def Filter.MatchSince (fil : Filter) (event : EventJSON) : Bool :=
  match fil.FilterJSON.Since with
  | none => true
  | some since => decide (event.CreatedAt > since)

/-- Go `func (fil *Filter) MatchUntil(event *Event) bool`:
`event.CreatedAt < *fil.Until` - a strict bound. -/
def Filter.MatchUntil (fil : Filter) (event : EventJSON) : Bool :=
  match fil.FilterJSON.Until with
  | none => true
  | some until_ => decide (event.CreatedAt < until_)

/-- Go `func (fil *Filter) Match(event *Event) bool`. -/
def Filter.Match (fil : Filter) (event : EventJSON) : Bool :=
  fil.MatchIDs event && fil.MatchAuthors event && fil.MatchKinds event &&
    fil.MatchEtags event && fil.MatchPtags event &&
    fil.MatchSince event && fil.MatchUntil event

/-- Go `type FilterCounter struct` (src/req_filter.go). -/
structure FilterCounter where
  Filter : Filter
  count : Int
  deriving Repr, DecidableEq

/-- Go `func NewFilterCounter(fil *Filter) *FilterCounter`. -/
def NewFilterCounter (fil : Filter) : FilterCounter :=
  { Filter := fil, count := 0 }

/-- Go `func (fil *FilterCounter) Done() bool`. -/
def FilterCounter.Done (fc : FilterCounter) : Bool :=
  match fc.Filter.FilterJSON.Limit with
  | none => false
  | some limit => decide (fc.count ≥ limit)

/-- Go `func (fil *FilterCounter) Match(event *Event) bool`: returns false
without counting when already done; otherwise counts a pure match. -/
def FilterCounter.Match (fc : FilterCounter) (event : EventJSON) : Bool × FilterCounter :=
  if fc.Done then (false, fc)
  else if fc.Filter.Match event then (true, { fc with count := fc.count + 1 })
  else (false, fc)

/-- Go `type FiltersCounter []*FilterCounter`. -/
abbrev FiltersCounter := List FilterCounter

/-- Go `func (fils FiltersCounter) Done() bool`. -/
def FiltersCounter.Done (fcs : FiltersCounter) : Bool :=
  fcs.all FilterCounter.Done

/-- Go `func (fils *FiltersCounter) Match(event *Event) bool`:
`res = fil.Match(event) || res` over all members, updating each counter. -/
def FiltersCounter.Match (fcs : FiltersCounter) (event : EventJSON) : Bool × FiltersCounter :=
  fcs.foldl
    (fun acc fc =>
      let r := fc.Match event
      (r.1 || acc.1, acc.2 ++ [r.2]))
    (false, [])

/-- The error cases of `NewFilter` in src/req_filter.go: the generic
`nil filter` error, or a `ReqFilterMinPrefixError` with its `What` field and
the offending entry length. -/
inductive NewFilterError where
  | nilFilter
  | tooShort (what : String) (length : Nat)
  deriving Repr, DecidableEq

/-- The per-field scan shared by the four blocks of `NewFilter`: the length
of the first entry shorter than `MinPrefix`, if any. -/
def firstShort (minPfx : Nat) : Option (List String) → Option Nat
  | none => none
  | some l => (l.find? fun id => decide (id.length < minPfx)).map String.length

namespace reqFilterGo

/-- Go `func NewFilter(json *FilterJSON) (*Filter, error)` (src/req_filter.go):
checks IDs, Authors, Ptags, Etags in that order against `Cfg.MinPrefix`
(passed here as `minPfx`). -/
def NewFilter (minPfx : Nat) (json : Option FilterJSON) : Except NewFilterError Filter :=
  match json with
  | none => .error .nilFilter
  | some j =>
    match firstShort minPfx j.IDs with
    | some n => .error (.tooShort "ids" n)
    | none =>
      match firstShort minPfx j.Authors with
      | some n => .error (.tooShort "authors" n)
      | none =>
        match firstShort minPfx j.Ptags with
        | some n => .error (.tooShort "ptags" n)
        | none =>
          match firstShort minPfx j.Etags with
          | some n => .error (.tooShort "etags" n)
          | none => .ok { FilterJSON := j }

/-- The collect-and-continue loop of `NewFiltersFromFilterJSONs`
(src/req_filter.go): min-prefix errors are joined into the error list and the
loop continues; any other error (the nil-filter case) aborts. -/
def collectFilters (minPfx : Nat) :
    List (Option FilterJSON) → Except String (List Filter × List NewFilterError)
  | [] => .ok ([], [])
  | j :: rest =>
    match NewFilter minPfx j with
    | .ok fil =>
      (collectFilters minPfx rest).map fun r => (fil :: r.1, r.2)
    | .error (.tooShort what n) =>
      (collectFilters minPfx rest).map fun r => (r.1, .tooShort what n :: r.2)
    | .error .nilFilter => .error "nil filter"

/-- Go `func NewFiltersFromFilterJSONs(jsons []*FilterJSON) (Filters, error)`
(src/req_filter.go): fatal when more than `Cfg.MaxFilters+2` filters,
otherwise collect-and-continue. The successful result carries the surviving
filters together with the joined min-prefix errors. -/
def NewFiltersFromFilterJSONs (minPfx maxFilters : Nat) (jsons : List (Option FilterJSON)) :
    Except String (List Filter × List NewFilterError) :=
  if jsons.length > maxFilters + 2 then .error "filter is too long"
  else collectFilters minPfx jsons

end reqFilterGo

namespace entityGo

/-- Go `func NewFilter(json *FilterJSON) (*Filter, error)` (src/entity.go):
same min-prefix checks with plain-string errors, plus the final
`empty ids, authors, #p, #e` check. -/
def NewFilter (minPfx : Nat) (json : Option FilterJSON) : Except String Filter :=
  match json with
  | none => .error "nil filter"
  | some j =>
    match firstShort minPfx j.IDs with
    | some _ => .error "too short id prefix"
    | none =>
      match firstShort minPfx j.Authors with
      | some _ => .error "too short author id prefix"
      | none =>
        match firstShort minPfx j.Ptags with
        | some _ => .error "too short ptag id prefix"
        | none =>
          match firstShort minPfx j.Etags with
          | some _ => .error "too short etag id prefix"
          | none =>
            if (j.IDs.getD []).isEmpty && (j.Authors.getD []).isEmpty &&
                (j.Ptags.getD []).isEmpty && (j.Etags.getD []).isEmpty then
              .error "empty ids, authors, p, e"
            else .ok { FilterJSON := j }

/-- The fail-fast loop of `NewFiltersFromFilterJSONs` (src/entity.go):
the first `NewFilter` error aborts the whole construction. -/
def buildFilters (minPfx : Nat) : List (Option FilterJSON) → Except String (List Filter)
  | [] => .ok []
  | j :: rest =>
    match NewFilter minPfx j with
    | .ok fil => (buildFilters minPfx rest).map fun fils => fil :: fils
    | .error e => .error e

/-- Go `func NewFiltersFromFilterJSONs(jsons []*FilterJSON) (Filters, error)`
(src/entity.go): fatal length check, then fail-fast construction. -/
def NewFiltersFromFilterJSONs (minPfx maxFilters : Nat) (jsons : List (Option FilterJSON)) :
    Except String (List Filter) :=
  if jsons.length > maxFilters + 2 then .error "filter is too long"
  else buildFilters minPfx jsons

end entityGo

end relayMain

namespace relayGo

/-- The server message variants of package main (src/entity.go,
src/data_structure.go part 2): EVENT, EOSE, NOTICE and OK arrays. -/
inductive ServerMsg where
  | event (subID : String) (ev : relayMain.EventJSON)
  | eose (subID : String)
  | notice (message : String)
  | ok (eventID : String) (succeeded : Bool) (msgPfx msg : String)
  deriving Repr, DecidableEq

/-- Go `ServerOKMsgPrefixInvalid = "invalid: "` (src/entity.go). -/
def ServerOKMsgPfxInvalid : String := "invalid: "

/-- The observable per-connection state touched by
`Relay.serveClientEventMsgJSON` (src/relay.go): events saved to the cache,
events published to the router, and server messages queued on the sender
channel. -/
structure RelayState where
  saved : List relayMain.EventJSON
  published : List relayMain.EventJSON
  sent : List ServerMsg
  deriving Repr, DecidableEq

/-- Go `func (*Relay) serveClientEventMsgJSON(router, cache, msg) error`
(src/relay.go lines 192-216). The cryptographic verification and the
wall-clock freshness check are external calls, passed in as their results:
`verify` is the pair returned by `EventJSON.Verify` (`none` for a non-nil
error) and `validCreatedAt` is the result of `Event.ValidCreatedAt`.
On any failure the function returns an error (logged by `wsReceiver`, which
then continues) and performs no effect; on success it saves to the cache and
publishes to the router. No server message is queued on either path. -/
def serveClientEventMsgJSON (verify : Option Bool) (validCreatedAt : Bool)
    (msg : relayMain.EventJSON) (st : RelayState) : RelayState × Option String :=
  match verify with
  | none => (st, some "failed to verify event json")
  | some ok =>
    if !ok then (st, some "invalid signature")
    else if !validCreatedAt then (st, some "invalid created_at")
    else
      ({ st with
          saved := st.saved ++ [msg]
          published := st.published ++ [msg] }, none)

end relayGo

namespace mocrelay

/-- Go `func validHexString(s string) bool` (src/utils.go). -/
def validHexString (s : String) : Bool :=
  decide (s.length ≠ 0) &&
    s.toList.all fun r => (('0' ≤ r && r ≤ '9') || ('a' ≤ r && r ≤ 'f'))

/-- Go `func validID(id string) bool` (src/data_structure.go). -/
def validID (id : String) : Bool := id.length == 64 && validHexString id

/-- Go `func validPubkey(pubkey string) bool`. -/
def validPubkey (pubkey : String) : Bool := pubkey.length == 64 && validHexString pubkey

/-- Go `func validKind(kind int64) bool` (src/data_structure.go line 1840):
`return 0 <= kind || kind <= 65535` - the disjunction is transcribed exactly
as written in the source. -/
def validKind (kind : Int) : Bool := decide (0 ≤ kind) || decide (kind ≤ 65535)

/-- Go `type Tag []string` (package mocrelay). -/
abbrev Tag := List String

/-- Go `func validTag(tag Tag) bool`: `len(tag) >= 1 && tag[0] != ""`. -/
def validTag (tag : Tag) : Bool := decide (1 ≤ tag.length) && (tag.headD "" != "")

/-- Go `func validSig(sig string) bool`. -/
def validSig (sig : String) : Bool := sig.length == 128 && validHexString sig

/-- Go `func validNaddr(naddr string) bool`: three colon-separated parts, an
integer kind accepted by `validKind`, and a valid pubkey. `strconv.ParseInt`
is modelled by `String.toInt?`. -/
def validNaddr (naddr : String) : Bool :=
  match naddr.splitOn ":" with
  | [e0, e1, _e2] =>
    match e0.toInt? with
    | none => false
    | some kind => validKind kind && validPubkey e1
  | _ => false

/-- Go `type ReqFilter struct` (package mocrelay, src/data_structure.go):
nil-able slices and a nil-able tag map whose values are themselves nil-able
slices. -/
structure ReqFilter where
  IDs : Option (List String) := none
  Authors : Option (List String) := none
  Kinds : Option (List Int) := none
  Tags : Option (List (String × Option (List String))) := none
  Since : Option Int := none
  Until : Option Int := none
  Limit : Option Int := none
  deriving Repr, DecidableEq

/-- The per-entry key-and-values check inside the `fil.Tags != nil` block of
`ReqFilter.Valid`: key must be `#` followed by an ASCII letter, values must
be non-nil, and `#e` / `#p` / `#a` values must pass their validators. -/
def validTagEntry (tag : String) (vals : Option (List String)) : Bool :=
  match tag.toList with
  | [c0, c1] =>
    if !(c0 == '#' && (('A' ≤ c1 && c1 ≤ 'Z') || ('a' ≤ c1 && c1 ≤ 'z'))) then false
    else match vals with
      | none => false
      | some vs =>
        if tag == "#e" then vs.all validID
        else if tag == "#p" then vs.all validPubkey
        else if tag == "#a" then vs.all validNaddr
        else true
  | _ => false

/-- Go `func (fil *ReqFilter) Valid() bool` (src/data_structure.go lines
1271-1349), for a non-nil filter. -/
def ReqFilter.Valid (fil : ReqFilter) : Bool :=
  (match fil.IDs with | none => true | some ids => ids.all validID) &&
  (match fil.Authors with | none => true | some authors => authors.all validPubkey) &&
  (match fil.Kinds with | none => true | some kinds => kinds.all validKind) &&
  (match fil.Tags with
    | none => true
    | some tags => tags.all fun entry => validTagEntry entry.1 entry.2) &&
  (match fil.Since with | none => true | some since => !decide (since < 0)) &&
  (match fil.Until with | none => true | some until_ => !decide (until_ < 0)) &&
  (match fil.Since, fil.Until with
    | some since, some until_ => !decide (since > until_)
    | _, _ => true) &&
  (match fil.Limit with | none => true | some limit => !decide (limit < 0))

/-- Go `type Event struct` (package mocrelay, src/data_structure.go):
`Tags` is a nil-able slice, distinguished because `Event.Valid` checks
`ev.Tags != nil`. -/
structure Event where
  ID : String
  Pubkey : String
  CreatedAt : Int
  Kind : Int
  Tags : Option (List Tag)
  Content : String
  Sig : String
  deriving Repr, DecidableEq

/-- Go `func (ev *Event) Valid() bool` (src/data_structure.go lines
1732-1740), for a non-nil event. -/
def Event.Valid (ev : Event) : Bool :=
  validID ev.ID &&
  validPubkey ev.Pubkey &&
  validKind ev.Kind &&
  (match ev.Tags with
    | none => false
    | some tags => tags.all validTag) &&
  validSig ev.Sig

end mocrelay

namespace Json

/-- Decoded JSON values as produced by Go's `encoding/json` with
`UseNumber`: numbers are kept exact; only integer literals appear in the
inputs these parsers care about, so a number is modelled as the integer it
denotes. An object is the decoded Go map, written as an association list
with pairwise distinct keys. -/
inductive Value where
  | null
  | bool (b : Bool)
  | num (n : Int)
  | str (s : String)
  | arr (elems : List Value)
  | obj (fields : List (String × Value))

/-- Go map lookup `obj[k]` on a decoded object. -/
def lookupKey (fields : List (String × Value)) (key : String) : Option Value :=
  (fields.find? fun p => p.1 == key).map fun p => p.2

/-- Go `json.Number.Int64()` on an integer literal: fails outside the
signed 64-bit range. -/
def numberInt64 (n : Int) : Except String Int :=
  if -(2 ^ 63) ≤ n ∧ n < 2 ^ 63 then .ok n else .error "value out of range"

/-- Decode `[]any` elements that must all be strings
(`anySliceAs[string]` in src/utils.go). -/
def asStringList : List Value → Option (List String)
  | [] => some []
  | .str s :: rest => (asStringList rest).map fun l => s :: l
  | _ => none

/-- Decode `[]any` elements that must all be arrays
(`anySliceAs[[]any]` in src/utils.go). -/
def asArrList : List Value → Option (List (List Value))
  | [] => some []
  | .arr elems :: rest => (asArrList rest).map fun l => elems :: l
  | _ => none

end Json

namespace mocrelay

/-- The tags block of `Event.UnmarshalJSON`: `tags` must be a json array of
json arrays of strings. -/
def decodeTags (v : Json.Value) : Except String (List Tag) :=
  match v with
  | .arr elems =>
    match Json.asArrList elems with
    | none => .error "tags is not a array of json array"
    | some slisli =>
      match (slisli.mapM Json.asStringList : Option (List (List String))) with
      | none => .error "tags is not string arrays of json array"
      | some tags => .ok tags
  | _ => .error "tags is not a json array"

/-- The `tmp, ok = obj[key]; if !ok return "... not found"` step of
`Event.UnmarshalJSON`. -/
def getField (obj : List (String × Json.Value)) (key msg : String) :
    Except String Json.Value :=
  match Json.lookupKey obj key with
  | none => .error msg
  | some v => .ok v

/-- The `tmp.(string)` type assertion of `Event.UnmarshalJSON`. -/
def asStr (v : Json.Value) (msg : String) : Except String String :=
  match v with
  | .str s => .ok s
  | _ => .error msg

/-- The `tmp.(json.Number)` assertion followed by `Int64()` in
`Event.UnmarshalJSON`. -/
def asInt64 (v : Json.Value) (notNum notInt : String) : Except String Int :=
  match v with
  | .num n =>
    (match Json.numberInt64 n with
      | .ok k => .ok k
      | .error _ => .error notInt)
  | _ => .error notNum

/-- Go `func (ev *Event) UnmarshalJSON(b []byte) error` (src/data_structure.go
lines 1609-1719), applied to the decoded JSON value: requires a json object
with exactly 7 members, then extracts the seven event fields with their
required types. -/
def Event.UnmarshalJSON (j : Json.Value) : Except String Event :=
  match j with
  | .obj obj =>
    if obj.length ≠ 7 then .error "contains some extra fields"
    else do
      let idv ← getField obj "id" "id not found"
      let id ← asStr idv "id is not a json string"
      let pkv ← getField obj "pubkey" "pubkey not found"
      let pubkey ← asStr pkv "pubkey is not a json string"
      let cav ← getField obj "created_at" "created_at not found"
      let createdAt ← asInt64 cav "created_at is not a json number" "created_at is not an integer"
      let kv ← getField obj "kind" "kind not found"
      let kind ← asInt64 kv "kind is not a json number" "kind is not an integer"
      let tv ← getField obj "tags" "tags not found"
      let tags ← decodeTags tv
      let cv ← getField obj "content" "content not found"
      let content ← asStr cv "content is not a json string"
      let sv ← getField obj "sig" "sig not found"
      let sig ← asStr sv "sig is not a json string"
      .ok { ID := id, Pubkey := pubkey, CreatedAt := createdAt, Kind := kind,
            Tags := some tags, Content := content, Sig := sig }
  | _ => .error "not a json object"

end mocrelay

namespace relayMain

/-- Standard-library-compatible decoding of a string struct field: a JSON
null leaves the zero value, anything other than a string is an error. -/
def decodeStrField (v : Option Json.Value) : Except String String :=
  match v with
  | none => .ok ""
  | some .null => .ok ""
  | some (.str s) => .ok s
  | some _ => .error "expected string"

/-- Standard-library-compatible decoding of an `int` struct field. -/
def decodeIntField (v : Option Json.Value) : Except String Int :=
  match v with
  | none => .ok 0
  | some .null => .ok 0
  | some (.num n) => Json.numberInt64 n
  | some _ => .error "expected number"

/-- Standard-library-compatible decoding of a `[][]string` struct field. -/
def decodeTagsField (v : Option Json.Value) : Except String (List (List String)) :=
  match v with
  | none => .ok []
  | some .null => .ok []
  | some (.arr elems) =>
    match Json.asArrList elems with
    | none => .error "expected array of arrays"
    | some slisli =>
      match (slisli.mapM Json.asStringList : Option (List (List String))) with
      | none => .error "expected array of string arrays"
      | some tags => .ok tags
  | some _ => .error "expected array"

/-- Go `func ParseEventJSON(json []byte) (*EventJSON, error)` (src/entity.go
lines 126-136), applied to the decoded JSON value. `jsoniter` with
`ConfigCompatibleWithStandardLibrary` unmarshals into the `EventJSON` struct:
known keys are decoded by their struct tags, unknown keys are ignored, and
missing keys leave the zero value. -/
def ParseEventJSON (j : Json.Value) : Except String EventJSON :=
  match j with
  | .null => .ok { ID := "", Pubkey := "", CreatedAt := 0, Kind := 0,
                   Tags := [], Content := "", Sig := "" }
  | .obj fields => do
    let id ← decodeStrField (Json.lookupKey fields "id")
    let pubkey ← decodeStrField (Json.lookupKey fields "pubkey")
    let createdAt ← decodeIntField (Json.lookupKey fields "created_at")
    let kind ← decodeIntField (Json.lookupKey fields "kind")
    let tags ← decodeTagsField (Json.lookupKey fields "tags")
    let content ← decodeStrField (Json.lookupKey fields "content")
    let sig ← decodeStrField (Json.lookupKey fields "sig")
    .ok { ID := id, Pubkey := pubkey, CreatedAt := createdAt, Kind := kind,
          Tags := tags, Content := content, Sig := sig }
  | _ => .error "expected object"

end relayMain

namespace mocrelay

/-- Go `type randCache[K comparable, V any] struct` (src/data_structure.go):
the Go map `c` is modelled as an association list with pairwise distinct
keys. -/
structure randCache (K V : Type) where
  Cap : Nat
  c : List (K × V)
  deriving Repr

/-- Go `func newRandCache[K comparable, V any](capacity int)`. -/
def newRandCache (K V : Type) (capacity : Nat) : randCache K V :=
  { Cap := capacity, c := [] }

/-- Go `func (c *randCache[K, V]) Get(key K) (v V, found bool)`. -/
def randCache.Get [BEq K] (cache : randCache K V) (key : K) : Option V :=
  (cache.c.find? fun p => p.1 == key).map fun p => p.2

/-- Go `func (c *randCache[K, V]) Set(key K, value V) (added bool)`
(src/data_structure.go lines 332-348). The `for k = range c.c break`
statement picks an arbitrary key of the map; that choice is passed in as the
oracle `pick`. When the map is empty the Go loop body never runs and the
delete of the zero-value key is a no-op, which corresponds to `pick`
returning `none`. -/
def randCache.Set [BEq K] (cache : randCache K V) (key : K) (value : V)
    (pick : List (K × V) → Option K) : Bool × randCache K V :=
  if (cache.c.find? fun p => p.1 == key).isSome then (false, cache)
  else
    let c1 :=
      if cache.Cap ≤ cache.c.length then
        match pick cache.c with
        | some k => cache.c.eraseP fun p => p.1 == k
        | none => cache.c
      else cache.c
    (true, { cache with c := c1 ++ [(key, value)] })

/-- A sequential client program against the random-evict cache. -/
inductive CacheOp (K V : Type) where
  | set (k : K) (v : V)
  | get (k : K)

/-- Run a sequence of `Set`/`Get` calls; `Get` reads the map without
modifying it. -/
def randCache.run [BEq K] (pick : List (K × V) → Option K) :
    randCache K V → List (CacheOp K V) → randCache K V
  | cache, [] => cache
  | cache, .set k v :: rest => randCache.run pick (cache.Set k v pick).2 rest
  | cache, .get _ :: rest => randCache.run pick cache rest

/-- Go `const skipListMaxHeight = 16`. -/
def skipListMaxHeight : Nat := 16

/-- Node ids index the heap array of the skip-list model; id 0 is the head
sentinel. -/
abbrev NodeId := Nat

/-- Go `type skipListNode[K any, V any] struct`: pointers become node ids,
`nil` becomes `none`. -/
structure skipListNode (K V : Type) where
  K : K
  V : V
  Nexts : List (Option NodeId)
  deriving Repr

/-- Go `type skipList[K any, V any] struct`. The Go comparison function
returns an `int`; sequential executions only, so the mutexes are dropped.
The node heap is an array whose entry 0 is the head sentinel. -/
structure skipList (K V : Type) where
  Cmp : K → K → Int
  nodes : Array (skipListNode K V)
  len : Int

/-- Go `func newSkipList[K any, V any](cmp func(K, K) int)`: the head node
carries the zero values of `K` and `V`, passed explicitly. -/
def newSkipList (cmp : K → K → Int) (zeroK : K) (zeroV : V) : skipList K V :=
  { Cmp := cmp
    nodes := #[{ K := zeroK, V := zeroV, Nexts := List.replicate skipListMaxHeight none }]
    len := 0 }

/-- Go `func (l *skipList[K, V]) Len() int`. -/
def skipList.Len (sl : skipList K V) : Int := sl.len

/-- The inner `for` walk of `skipList.Find` at level `h`: advance while the
next node exists and its key is not greater than `k`; returns the stopping
node. Fuel-bounded; `none` means fuel ran out or a dangling id was met. -/
def skipList.findWalk (sl : skipList K V) (k : K) (h : Nat) :
    Nat → NodeId → Option NodeId
  | 0, _ => none
  | fuel + 1, node => do
    let nd ← sl.nodes[node]?
    let nextOpt ← nd.Nexts[h]?
    match nextOpt with
    | none => some node
    | some nid => do
      let nnd ← sl.nodes[nid]?
      if sl.Cmp nnd.K k > 0 then some node
      else sl.findWalk k h fuel nid

/-- The outer level loop of `skipList.Find`, from level `levels - 1` down to
level 0. When the loop ends, Go returns the named zero results, passed in as
`zeroV`. Mirrors the early `return` taken when the stopping node compares
equal to `k`: the head sentinel yields `(zeroV, false)`, any other node
yields its value. -/
def skipList.findAt (sl : skipList K V) (k : K) (zeroV : V) (fuel : Nat) :
    Nat → NodeId → Option (V × Bool)
  | 0, _ => some (zeroV, false)
  | levels + 1, node => do
    let node' ← sl.findWalk k levels fuel node
    let nd ← sl.nodes[node']?
    if sl.Cmp nd.K k == 0 then
      if node' == 0 then some (zeroV, false)
      else some (nd.V, true)
    else sl.findAt k zeroV fuel levels node'

/-- Go `func (l *skipList[K, V]) Find(k K) (v V, ok bool)`
(src/data_structure.go lines 112-135). -/
def skipList.Find (sl : skipList K V) (k : K) (zeroV : V) (fuel : Nat) :
    Option (V × Bool) :=
  sl.findAt k zeroV fuel skipListMaxHeight 0

/-- Go `type skipListStackEntry[K, V any] struct`: a `nil` node pointer (the
zero value, used by `tryDelete` for levels without a match) is `none`. -/
structure skipListStackEntry where
  node : Option NodeId
  nexts : List (Option NodeId)
  deriving Repr

/-- The inner `for` walk shared by `tryAdd` and `tryDelete` at level `h`:
advance while the next node exists and its key is less than `k` (break on
`Cmp >= 0`); returns the stopping node together with the snapshot of its
`Nexts` slice taken under the read lock. -/
def skipList.addWalk (sl : skipList K V) (k : K) (h : Nat) :
    Nat → NodeId → Option (NodeId × List (Option NodeId))
  | 0, _ => none
  | fuel + 1, node => do
    let nd ← sl.nodes[node]?
    let nextOpt ← nd.Nexts[h]?
    match nextOpt with
    | none => some (node, nd.Nexts)
    | some nid => do
      let nnd ← sl.nodes[nid]?
      if sl.Cmp nnd.K k ≥ 0 then some (node, nd.Nexts)
      else sl.addWalk k h fuel nid

/-- The outer level loop of `tryAdd`: collects the `switched` stack (one
entry per level, level `h` at list position `h`); the inner `some none`
result is the `return false, true` taken when the key is already present. -/
def skipList.tryAddLevels (sl : skipList K V) (k : K) (fuel : Nat) :
    Nat → NodeId → List skipListStackEntry →
    Option (Option (List skipListStackEntry))
  | 0, _, acc => some (some acc)
  | levels + 1, node, acc => do
    let r ← sl.addWalk k levels fuel node
    let node' := r.1
    let nexts := r.2
    match nexts.getD levels none with
    | some nid => do
      let nnd ← sl.nodes[nid]?
      if sl.Cmp nnd.K k == 0 then some none
      else
        sl.tryAddLevels k fuel levels node'
          ({ node := some node', nexts := nexts } :: acc)
    | none =>
      sl.tryAddLevels k fuel levels node'
        ({ node := some node', nexts := nexts } :: acc)

/-- Write `v` into `Nexts[h]` of node `nid` (the Go pointer assignment
`node.Nexts[h] = v`). -/
def setNext (nodes : Array (skipListNode K V)) (nid : NodeId) (h : Nat)
    (v : Option NodeId) : Array (skipListNode K V) :=
  match nodes[nid]? with
  | none => nodes
  | some nd => nodes.setD nid { nd with Nexts := nd.Nexts.set h v }

/-- The second loop of `tryAddInsert`, from level `height - 1` down to 0:
`newNode.Nexts[h] = switched[h].node.Nexts[h]; switched[h].node.Nexts[h] = newNode`. -/
def skipList.tryAddInsertLoop (nodes : Array (skipListNode K V)) (newId : NodeId)
    (switched : List skipListStackEntry) : Nat → Array (skipListNode K V)
  | 0 => nodes
  | h + 1 =>
    let entry := switched.getD h { node := none, nexts := [] }
    match entry.node with
    | none => skipList.tryAddInsertLoop nodes newId switched h
    | some pid =>
      let cur :=
        match nodes[pid]? with
        | some nd => nd.Nexts.getD h none
        | none => none
      let nodes1 := setNext nodes newId h cur
      let nodes2 := setNext nodes1 pid h (some newId)
      skipList.tryAddInsertLoop nodes2 newId switched h

/-- The validation loop of `tryAddInsert` (and of `tryDeleteRemove`): under
the write locks, `slices.Equal(node.Nexts, switched[h].nexts)` must still
hold for every recorded level. -/
def skipList.validateSwitched (sl : skipList K V)
    (switched : List skipListStackEntry) (levels : Nat) : Bool :=
  (List.range levels).all fun h =>
    let entry := switched.getD h { node := none, nexts := [] }
    match entry.node with
    | none => true
    | some pid =>
      match sl.nodes[pid]? with
      | none => false
      | some nd => nd.Nexts == entry.nexts

/-- Go `func (l *skipList[K, V]) tryAdd(k K, v V) (added, ok bool)`
(src/data_structure.go lines 156-218). The random `newHeight()` result is
the oracle argument `height`. Returns `(added, ok, new state)`. -/
def skipList.tryAdd (sl : skipList K V) (k : K) (v : V) (height fuel : Nat) :
    Option (Bool × Bool × skipList K V) := do
  let res ← sl.tryAddLevels k fuel skipListMaxHeight 0 []
  match res with
  | none => some (false, true, sl)
  | some switched =>
    if !sl.validateSwitched switched height then some (true, false, sl)
    else
      let newId := sl.nodes.size
      let nodes0 := sl.nodes.push { K := k, V := v, Nexts := List.replicate height none }
      let nodes1 := skipList.tryAddInsertLoop nodes0 newId switched height
      some (true, true, { sl with nodes := nodes1 })

/-- Go `func (l *skipList[K, V]) Add(k K, v V) (added bool)`: retry `tryAdd`
until it reports `ok`, then bump `len` when a node was inserted. Fuel bounds
both the retry loop and the inner walks. -/
def skipList.Add (sl : skipList K V) (k : K) (v : V) (height : Nat) :
    Nat → Option (Bool × skipList K V)
  | 0 => none
  | fuel + 1 => do
    let r ← sl.tryAdd k v height (fuel + 1)
    let added := r.1
    let ok := r.2.1
    let sl' := r.2.2
    if ok then
      if added then some (added, { sl' with len := sl'.len + 1 })
      else some (added, sl')
    else sl'.Add k v height fuel

/-- The outer level loop of `tryDelete`: levels whose stopping `next` node
compares equal to `k` record a stack entry, all other levels keep the zero
entry (a `nil` node). -/
def skipList.tryDeleteLevels (sl : skipList K V) (k : K) (fuel : Nat) :
    Nat → NodeId → List skipListStackEntry → Option (List skipListStackEntry)
  | 0, _, acc => some acc
  | levels + 1, node, acc => do
    let r ← sl.addWalk k levels fuel node
    let node' := r.1
    let nexts := r.2
    let entry ←
      match nexts.getD levels none with
      | some nid => do
        let nnd ← sl.nodes[nid]?
        if sl.Cmp nnd.K k == 0 then
          pure { node := some node', nexts := nexts : skipListStackEntry }
        else pure { node := none, nexts := [] : skipListStackEntry }
      | none => pure { node := none, nexts := [] : skipListStackEntry }
    sl.tryDeleteLevels k fuel levels node' (entry :: acc)

/-- The second loop of `tryDeleteRemove`:
`switched[h].node.Nexts[h] = switched[h].node.Nexts[h].Nexts[h]` for each
recorded level, from high to low. -/
def skipList.tryDeleteRemoveLoop (nodes : Array (skipListNode K V))
    (switched : List skipListStackEntry) : Nat → Array (skipListNode K V)
  | 0 => nodes
  | h + 1 =>
    let entry := switched.getD h { node := none, nexts := [] }
    match entry.node with
    | none => skipList.tryDeleteRemoveLoop nodes switched h
    | some pid =>
      let succ :=
        match nodes[pid]? with
        | some nd => nd.Nexts.getD h none
        | none => none
      let succNext :=
        match succ with
        | some sid =>
          (match nodes[sid]? with
            | some snd => snd.Nexts.getD h none
            | none => none)
        | none => none
      let nodes1 := setNext nodes pid h succNext
      skipList.tryDeleteRemoveLoop nodes1 switched h

/-- Go `func (l *skipList[K, V]) tryDelete(k K) (added, ok bool)`
(src/data_structure.go lines 241-277). Returns `(deleted, ok, new state)`. -/
def skipList.tryDelete (sl : skipList K V) (k : K) (fuel : Nat) :
    Option (Bool × Bool × skipList K V) := do
  let switched ← sl.tryDeleteLevels k fuel skipListMaxHeight 0 []
  if switched.all fun e => e.node == none then some (false, true, sl)
  else if !sl.validateSwitched switched skipListMaxHeight then some (true, false, sl)
  else
    let nodes1 := skipList.tryDeleteRemoveLoop sl.nodes switched skipListMaxHeight
    some (true, true, { sl with nodes := nodes1 })

/-- Go `func (l *skipList[K, V]) Delete(k K) (deleted bool)`. -/
def skipList.Delete (sl : skipList K V) (k : K) :
    Nat → Option (Bool × skipList K V)
  | 0 => none
  | fuel + 1 => do
    let r ← sl.tryDelete k (fuel + 1)
    let deleted := r.1
    let ok := r.2.1
    let sl' := r.2.2
    if ok then
      if deleted then some (deleted, { sl' with len := sl'.len - 1 })
      else some (deleted, sl')
    else sl'.Delete k fuel

end mocrelay

/-- Modelled from the spec: the tag predicate as worded in spec.md section 3
and claim C6 - some event tag has name `x` AND a second element (the tag
value) that begins with one of the listed strings. Used only to compare the
specification's wording with the source-derived `nostr.tagEntryMatch`. -/
def specTagEntryMatch (x : String) (vs : List String) (e : nostr.Event) : Bool :=
  e.Tags.any fun tagArr =>
    tagArr.headD "" == x && decide (2 ≤ tagArr.length) &&
      vs.any fun v => v.isPrefixOf (tagArr.getD 1 "")

/-- A sample nostr event used by concrete witnesses and counterexamples. -/
def sampleNostrEvent : nostr.Event :=
  { ID := "ab01", Pubkey := "cd02", CreatedAt := 5, Kind := 1,
    Tags := [["e", "dead"], ["p", "beef"]], Content := "powa", Sig := "ff" }

/-- A nostr event whose only tag is a bare name with no value element. -/
def bareTagEvent : nostr.Event :=
  { ID := "", Pubkey := "", CreatedAt := 0, Kind := 1, Tags := [["e"]],
    Content := "", Sig := "" }

/-- A sample package-main event. -/
def sampleMainEvent : relayMain.EventJSON :=
  { ID := "ab01", Pubkey := "cd02", CreatedAt := 5, Kind := 1,
    Tags := [["e", "dead"]], Content := "powa", Sig := "ff" }

/-- Fold a sequence of `CountMatch` calls over a nostr counted matcher. -/
def nostr.runCountMatch (m : nostr.ReqFilterEventMatcher) (es : List nostr.Event) :
    nostr.ReqFilterEventMatcher :=
  es.foldl (fun m e => (m.CountMatch e).2) m

/-- Fold a sequence of `Match` calls over a package-main filter counter. -/
def relayMain.runFilterCounter (fc : relayMain.FilterCounter)
    (es : List relayMain.EventJSON) : relayMain.FilterCounter :=
  es.foldl (fun fc e => (fc.Match e).2) fc

/-- A 64-character lowercase hex string. -/
def hex64 : String :=
  "aaaaaaaaaaaaaaaaaaaaaaaaaaaaaaaaaaaaaaaaaaaaaaaaaaaaaaaaaaaaaaaa"

/-- A 128-character lowercase hex string. -/
def hex128 : String := hex64 ++ hex64

/-- The members of a decoded event object carrying exactly the seven event
fields. -/
def sevenEventFields : List (String × Json.Value) :=
  [("id", .str "ab"), ("pubkey", .str "cd"),
   ("created_at", .num 1693157791), ("kind", .num 1),
   ("tags", .arr [.arr [.str "e", .str "dead"]]),
   ("content", .str "powa"), ("sig", .str "ff")]

/-- The same decoded event object with one extra unknown field, as in the
`"powa":"meu"` example of src/unnamed/part_000. -/
def eightFieldEventObj : Json.Value :=
  .obj (sevenEventFields ++ [("powa", .str "meu")])

/-- The seven event field names, in the order `Event.UnmarshalJSON` reads
them. -/
def sevenEventKeys : List String :=
  ["id", "pubkey", "created_at", "kind", "tags", "content", "sig"]

/-!
Theorems. Helper lemmas come first, then one theorem per claim (with its
counterexample and witness where required).
-/

theorem countMatch_fst (m : nostr.ReqFilterEventMatcher) (e : nostr.Event) :
    (m.CountMatch e).1 = m.Match e := by
  cases h : m.Match e <;> simp [nostr.ReqFilterEventMatcher.CountMatch, h]

theorem countMatch_snd (m : nostr.ReqFilterEventMatcher) (e : nostr.Event) :
    (m.CountMatch e).2 = if m.Match e then { m with cnt := m.cnt + 1 } else m := by
  cases h : m.Match e <;> simp [nostr.ReqFilterEventMatcher.CountMatch, h]

theorem countMatchSet_foldl_aux (e : nostr.Event) (ms : List nostr.ReqFilterEventMatcher)
    (acc : Bool × List nostr.ReqFilterEventMatcher) :
    ms.foldl (fun acc mm =>
        let r := mm.CountMatch e
        (r.1 || acc.1, acc.2 ++ [r.2])) acc
      = ((ms.any fun mm => mm.Match e) || acc.1,
         acc.2 ++ ms.map fun mm => (mm.CountMatch e).2) := by
  induction ms generalizing acc with
  | nil => simp
  | cons mm rest ih =>
    simp only [List.foldl_cons, List.any_cons, List.map_cons]
    rw [ih]
    refine Prod.ext ?_ ?_
    · simp [countMatch_fst, Bool.or_assoc, Bool.or_comm, Bool.or_left_comm]
    · simp

theorem countMatchSet_spec (ms : nostr.EventCountMatchers) (e : nostr.Event) :
    nostr.EventCountMatchers.CountMatch ms e
      = ((ms.any fun mm => mm.Match e), ms.map fun mm => (mm.CountMatch e).2) := by
  unfold nostr.EventCountMatchers.CountMatch
  rw [countMatchSet_foldl_aux]
  simp

theorem le_foldl_max (l : List Int) (acc : Int) : acc ≤ l.foldl max acc := by
  induction l generalizing acc with
  | nil => simp
  | cons x rest ih => exact le_trans (le_max_left acc x) (ih (max acc x))

theorem mem_le_foldl_max (l : List Int) (acc x : Int) (hx : x ∈ l) :
    x ≤ l.foldl max acc := by
  induction l generalizing acc with
  | nil => cases hx
  | cons y rest ih =>
    rcases List.mem_cons.mp hx with h | h
    · subst h
      exact le_trans (le_max_right acc x) (le_foldl_max rest (max acc x))
    · exact ih (max acc y) h

theorem foldl_max_attained (l : List Int) (acc : Int) :
    l.foldl max acc = acc ∨ ∃ x ∈ l, l.foldl max acc = x := by
  induction l generalizing acc with
  | nil => left; rfl
  | cons y rest ih =>
    rcases ih (max acc y) with h | ⟨x, hx, hfx⟩
    · rcases max_choice acc y with hm | hm
      · left; simpa [List.foldl_cons, hm] using h
      · right
        exact ⟨y, List.mem_cons_self _ _, by simpa [List.foldl_cons, hm] using h⟩
    · right
      exact ⟨x, List.mem_cons_of_mem _ hx, by simpa [List.foldl_cons] using hfx⟩

theorem countSet_eq_foldl_map (ms : nostr.EventCountMatchers) :
    nostr.EventCountMatchers.Count ms
      = (ms.map nostr.ReqFilterEventMatcher.Count).foldl max 0 := by
  unfold nostr.EventCountMatchers.Count
  rw [List.foldl_map]

/-- C1: the claim states that both the `since` and the `until` bounds are
inclusive for every filter matcher. This is false for the package-main
`Filter.MatchSince`: a filter with `since = 5` does not match an event with
`created_at = 5`. -/
theorem C1_counterexample :
    ¬ ((relayMain.Filter.MatchSince { FilterJSON := { Since := some 5 } }
          { ID := "", Pubkey := "", CreatedAt := 5, Kind := 1, Tags := [],
            Content := "", Sig := "" }) = true
        ↔ (5 : Int) ≤ 5) := by
  decide

/-- C1 (amended): the nostr `ReqFilterEventMatcher` time predicates are
inclusive (`since <= created_at`, `created_at <= until`), while the
package-main `Filter.MatchSince` / `Filter.MatchUntil` are strict
(`created_at > since`, `created_at < until`). -/
theorem C1_time_bounds :
    (∀ (f : nostr.ReqFilter) (e : nostr.Event) (s : Int),
        f.Since = some s → (nostr.matchSince f e = true ↔ s ≤ e.CreatedAt)) ∧
    (∀ (f : nostr.ReqFilter) (e : nostr.Event) (u : Int),
        f.Until = some u → (nostr.matchUntil f e = true ↔ e.CreatedAt ≤ u)) ∧
    (∀ (fil : relayMain.Filter) (e : relayMain.EventJSON) (s : Int),
        fil.FilterJSON.Since = some s →
          (relayMain.Filter.MatchSince fil e = true ↔ s < e.CreatedAt)) ∧
    (∀ (fil : relayMain.Filter) (e : relayMain.EventJSON) (u : Int),
        fil.FilterJSON.Until = some u →
          (relayMain.Filter.MatchUntil fil e = true ↔ e.CreatedAt < u)) := by
  refine ⟨?_, ?_, ?_, ?_⟩ <;> intro f e s hs <;>
    simp [nostr.matchSince, nostr.matchUntil, relayMain.Filter.MatchSince,
      relayMain.Filter.MatchUntil, hs]

/-- C1 witness: the amended theorem applied at concrete bounds. -/
theorem C1_time_bounds_witness :
    (nostr.matchSince { Since := some 3 } sampleNostrEvent = true ↔ (3 : Int) ≤ 5) ∧
    (nostr.matchUntil { Until := some 7 } sampleNostrEvent = true ↔ (5 : Int) ≤ 7) ∧
    (relayMain.Filter.MatchSince { FilterJSON := { Since := some 3 } } sampleMainEvent
        = true ↔ (3 : Int) < 5) ∧
    (relayMain.Filter.MatchUntil { FilterJSON := { Until := some 7 } } sampleMainEvent
        = true ↔ (5 : Int) < 7) :=
  ⟨C1_time_bounds.1 _ sampleNostrEvent 3 rfl,
   C1_time_bounds.2.1 _ sampleNostrEvent 7 rfl,
   C1_time_bounds.2.2.1 _ sampleMainEvent 3 rfl,
   C1_time_bounds.2.2.2 _ sampleMainEvent 7 rfl⟩

theorem fcsMatch_foldl_aux (e : relayMain.EventJSON)
    (fcs : List relayMain.FilterCounter)
    (acc : Bool × List relayMain.FilterCounter) :
    fcs.foldl (fun acc fc =>
        let r := fc.Match e
        (r.1 || acc.1, acc.2 ++ [r.2])) acc
      = ((fcs.any fun fc => (fc.Match e).1) || acc.1,
         acc.2 ++ fcs.map fun fc => (fc.Match e).2) := by
  induction fcs generalizing acc with
  | nil => simp
  | cons fc rest ih =>
    simp only [List.foldl_cons, List.any_cons, List.map_cons]
    rw [ih]
    refine Prod.ext ?_ ?_
    · simp [Bool.or_assoc, Bool.or_comm, Bool.or_left_comm]
    · simp

/-- C2: on a counted matcher set, `CountMatch` evaluates every inner
matcher (each member is updated by its own match result, independently of
the others) and returns the disjunction of the results; the package-main
`FiltersCounter.Match` behaves the same way; `Count` is the maximum of the
inner counts (with the inner counts non-negative, as they are in every
reachable state, the fold starting at 0 attains an inner count on a
non-empty set and bounds them all). -/
theorem C2_counted_matcher_set :
    (∀ (ms : nostr.EventCountMatchers) (e : nostr.Event),
        (nostr.EventCountMatchers.CountMatch ms e).1
            = (ms.any fun mm => mm.Match e) ∧
        (nostr.EventCountMatchers.CountMatch ms e).2
            = (ms.map fun mm =>
                if mm.Match e then { mm with cnt := mm.cnt + 1 } else mm)) ∧
    (∀ (fcs : relayMain.FiltersCounter) (e : relayMain.EventJSON),
        (relayMain.FiltersCounter.Match fcs e).1
            = (fcs.any fun fc => (fc.Match e).1) ∧
        (relayMain.FiltersCounter.Match fcs e).2
            = (fcs.map fun fc => (fc.Match e).2)) ∧
    (∀ ms : nostr.EventCountMatchers, (∀ mm ∈ ms, 0 ≤ mm.cnt) →
        (∀ mm ∈ ms, mm.Count ≤ nostr.EventCountMatchers.Count ms) ∧
        (ms ≠ [] → ∃ mm ∈ ms, nostr.EventCountMatchers.Count ms = mm.Count)) := by
  refine ⟨?_, ?_, ?_⟩
  · intro ms e
    rw [countMatchSet_spec]
    constructor
    · rfl
    · simp only
      exact List.map_congr_left fun mm _ => countMatch_snd mm e
  · intro fcs e
    unfold relayMain.FiltersCounter.Match
    rw [fcsMatch_foldl_aux]
    exact ⟨by simp, by simp⟩
  · intro ms hpos
    constructor
    · intro mm hmm
      rw [countSet_eq_foldl_map]
      exact mem_le_foldl_max _ 0 _ (List.mem_map_of_mem _ hmm)
    · intro hne
      rcases foldl_max_attained (ms.map nostr.ReqFilterEventMatcher.Count) 0 with h0 | hex
      · match ms, hne with
        | mm :: rest, _ =>
          refine ⟨mm, List.mem_cons_self _ _, le_antisymm ?_ ?_⟩
          · rw [countSet_eq_foldl_map, h0]
            exact hpos mm (List.mem_cons_self _ _)
          · rw [countSet_eq_foldl_map]
            exact mem_le_foldl_max _ 0 _ (List.mem_map_of_mem _ (List.mem_cons_self _ _))
      · rcases hex with ⟨x, hx, hfx⟩
        rcases List.mem_map.mp hx with ⟨mm, hmm, rfl⟩
        exact ⟨mm, hmm, by rw [countSet_eq_foldl_map, hfx]⟩

/-- C2 witness: the counted-set properties applied to a concrete two-filter
set and event. -/
theorem C2_counted_matcher_set_witness :
    (∀ mm ∈ [nostr.NewReqFilterMatcher { Kinds := some [1] },
             nostr.NewReqFilterMatcher { Kinds := some [2] }],
        mm.Count ≤ nostr.EventCountMatchers.Count
          [nostr.NewReqFilterMatcher { Kinds := some [1] },
           nostr.NewReqFilterMatcher { Kinds := some [2] }]) ∧
    (([nostr.NewReqFilterMatcher { Kinds := some [1] },
       nostr.NewReqFilterMatcher { Kinds := some [2] }] :
          nostr.EventCountMatchers) ≠ [] →
      ∃ mm ∈ [nostr.NewReqFilterMatcher { Kinds := some [1] },
              nostr.NewReqFilterMatcher { Kinds := some [2] }],
        nostr.EventCountMatchers.Count
          [nostr.NewReqFilterMatcher { Kinds := some [1] },
           nostr.NewReqFilterMatcher { Kinds := some [2] }] = mm.Count) :=
  C2_counted_matcher_set.2.2
    [nostr.NewReqFilterMatcher { Kinds := some [1] },
     nostr.NewReqFilterMatcher { Kinds := some [2] }]
    (by decide)

/-- C3 counterexample: for an event failing verification (`Verify` returned
`false`), the handler emits no server message at all - in particular no
OK-false message - so the claimed response does not happen; the state is
completely unchanged and the handler returns an error that the receiver
merely logs. -/
theorem C3_counterexample :
    (relayGo.serveClientEventMsgJSON (some false) true sampleMainEvent
        { saved := [], published := [], sent := [] }).1
      = { saved := [], published := [], sent := [] } ∧
    (relayGo.serveClientEventMsgJSON (some false) true sampleMainEvent
        { saved := [], published := [], sent := [] }).2
      = some "invalid signature" := by
  exact ⟨rfl, rfl⟩

/-- C3 (amended): when verification fails (an error or a `false` result),
`serveClientEventMsgJSON` leaves the connection state untouched - nothing is
saved, published or sent - and returns a non-nil error, which the receiver
loop logs before continuing. No `OK` message is emitted. -/
theorem C3_invalid_event_handling :
    ∀ (verify : Option Bool) (vca : Bool) (ev : relayMain.EventJSON)
      (st : relayGo.RelayState),
      verify = none ∨ verify = some false →
        (relayGo.serveClientEventMsgJSON verify vca ev st).1 = st ∧
        (relayGo.serveClientEventMsgJSON verify vca ev st).2 ≠ none := by
  rintro verify vca ev st (rfl | rfl) <;>
    simp [relayGo.serveClientEventMsgJSON]

/-- C3 witness: the amended theorem at a concrete invalid event. -/
theorem C3_invalid_event_handling_witness :
    (relayGo.serveClientEventMsgJSON (some false) true sampleMainEvent
        { saved := [], published := [], sent := [] }).1
      = { saved := [], published := [], sent := [] } ∧
    (relayGo.serveClientEventMsgJSON (some false) true sampleMainEvent
        { saved := [], published := [], sent := [] }).2 ≠ none :=
  C3_invalid_event_handling (some false) true sampleMainEvent
    { saved := [], published := [], sent := [] } (Or.inr rfl)

/-- C4: `validKind` is written `0 <= kind || kind <= 65535` - a disjunction
that every integer satisfies - so the kind-range check is vacuous:
`validKind` is constantly true, and both `ReqFilter.Valid` and `Event.Valid`
accept kinds far outside the range, contradicting the documented
`kind in 0..65535` rule. Kind 70000 is a concrete failing input. -/
theorem C4_validKind_vacuous :
    (∀ kind : Int, mocrelay.validKind kind = true) ∧
    mocrelay.ReqFilter.Valid { Kinds := some [70000] } = true ∧
    mocrelay.Event.Valid
        { ID := hex64, Pubkey := hex64, CreatedAt := 1, Kind := 70000,
          Tags := some [], Content := "", Sig := hex128 } = true := by
  refine ⟨?_, by decide, by decide⟩
  intro kind
  by_cases h : 0 ≤ kind
  · simp [mocrelay.validKind, h]
  · simp only [mocrelay.validKind, Bool.or_eq_true, decide_eq_true_eq]
    right
    omega

theorem fcMatch_fst (fc : relayMain.FilterCounter) (e : relayMain.EventJSON) :
    (fc.Match e).1 = (!fc.Done && fc.Filter.Match e) := by
  cases hd : fc.Done <;> cases hm : fc.Filter.Match e <;>
    simp [relayMain.FilterCounter.Match, hd, hm]

theorem fcMatch_snd_count (fc : relayMain.FilterCounter) (e : relayMain.EventJSON) :
    (fc.Match e).2.count
      = fc.count + (if !fc.Done && fc.Filter.Match e then 1 else 0) := by
  cases hd : fc.Done <;> cases hm : fc.Filter.Match e <;>
    simp [relayMain.FilterCounter.Match, hd, hm]

theorem fcMatch_snd_filter (fc : relayMain.FilterCounter) (e : relayMain.EventJSON) :
    (fc.Match e).2.Filter = fc.Filter := by
  cases hd : fc.Done <;> cases hm : fc.Filter.Match e <;>
    simp [relayMain.FilterCounter.Match, hd, hm]

theorem fcMatch_count_mono (fc : relayMain.FilterCounter) (e : relayMain.EventJSON) :
    fc.count ≤ (fc.Match e).2.count := by
  rw [fcMatch_snd_count]
  split <;> omega

theorem countMatch_cnt_step (m : nostr.ReqFilterEventMatcher) (e : nostr.Event) :
    (m.CountMatch e).2.cnt = m.cnt + (if m.Match e then 1 else 0) := by
  cases h : m.Match e <;> simp [nostr.ReqFilterEventMatcher.CountMatch, h]

theorem countMatch_f (m : nostr.ReqFilterEventMatcher) (e : nostr.Event) :
    (m.CountMatch e).2.f = m.f := by
  cases h : m.Match e <;> simp [nostr.ReqFilterEventMatcher.CountMatch, h]

theorem nostrDone_iff (m : nostr.ReqFilterEventMatcher) :
    m.Done = true ↔ ∃ limit, m.f.Limit = some limit ∧ limit ≤ m.cnt := by
  unfold nostr.ReqFilterEventMatcher.Done
  cases h : m.f.Limit <;> simp

theorem fcDone_iff (fc : relayMain.FilterCounter) :
    fc.Done = true
      ↔ ∃ limit, fc.Filter.FilterJSON.Limit = some limit ∧ limit ≤ fc.count := by
  unfold relayMain.FilterCounter.Done
  cases h : fc.Filter.FilterJSON.Limit <;> simp [ge_iff_le]

theorem nostrDone_mono_step (m : nostr.ReqFilterEventMatcher) (e : nostr.Event)
    (h : m.Done = true) : (m.CountMatch e).2.Done = true := by
  rw [nostrDone_iff] at h ⊢
  obtain ⟨limit, hl, hle⟩ := h
  refine ⟨limit, by rw [countMatch_f]; exact hl, ?_⟩
  rw [countMatch_cnt_step]
  split <;> omega

theorem fcDone_mono_step (fc : relayMain.FilterCounter) (e : relayMain.EventJSON)
    (h : fc.Done = true) : (fc.Match e).2.Done = true := by
  rw [fcDone_iff] at h ⊢
  obtain ⟨limit, hl, hle⟩ := h
  refine ⟨limit, by rw [fcMatch_snd_filter]; exact hl, ?_⟩
  have := fcMatch_count_mono fc e
  omega

/-- C5 counterexample: the claim says `count_match` returns exactly the pure
filter predicate. For the package-main `FilterCounter` with `limit = 0` the
counter is done from the start, so `Match` returns false although the pure
predicate is true. -/
theorem C5_counterexample :
    (relayMain.FilterCounter.Match
        (relayMain.NewFilterCounter { FilterJSON := { Limit := some 0 } })
        sampleMainEvent).1
      ≠ (relayMain.NewFilterCounter
          { FilterJSON := { Limit := some 0 } }).Filter.Match sampleMainEvent := by
  decide

/-- C5 (amended): the nostr `ReqFilterEventMatcher.CountMatch` returns
exactly the pure predicate and increments precisely on a match; the
package-main `FilterCounter.Match` returns the pure predicate only while not
yet done (false once done) and increments precisely then; for both, `done`
holds iff the filter has a limit not exceeding the count, and across any
sequence of counted matches `done` never falls back from true to false. -/
theorem C5_counted_matcher :
    (∀ (m : nostr.ReqFilterEventMatcher) (e : nostr.Event),
        (m.CountMatch e).1 = m.Match e ∧
        (m.CountMatch e).2.cnt = m.cnt + (if m.Match e then 1 else 0) ∧
        (m.CountMatch e).2.f = m.f) ∧
    (∀ m : nostr.ReqFilterEventMatcher,
        m.Done = true ↔ ∃ limit, m.f.Limit = some limit ∧ limit ≤ m.cnt) ∧
    (∀ (m : nostr.ReqFilterEventMatcher) (es : List nostr.Event),
        m.Done = true → (nostr.runCountMatch m es).Done = true) ∧
    (∀ (fc : relayMain.FilterCounter) (e : relayMain.EventJSON),
        (fc.Match e).1 = (!fc.Done && fc.Filter.Match e) ∧
        (fc.Match e).2.count
            = fc.count + (if !fc.Done && fc.Filter.Match e then 1 else 0) ∧
        (fc.Match e).2.Filter = fc.Filter) ∧
    (∀ fc : relayMain.FilterCounter,
        fc.Done = true
          ↔ ∃ limit, fc.Filter.FilterJSON.Limit = some limit ∧ limit ≤ fc.count) ∧
    (∀ (fc : relayMain.FilterCounter) (es : List relayMain.EventJSON),
        fc.Done = true → (relayMain.runFilterCounter fc es).Done = true) := by
  refine ⟨?_, nostrDone_iff, ?_, ?_, fcDone_iff, ?_⟩
  · exact fun m e => ⟨countMatch_fst m e, countMatch_cnt_step m e, countMatch_f m e⟩
  · intro m es h
    induction es generalizing m with
    | nil => exact h
    | cons e rest ih =>
      exact ih _ (nostrDone_mono_step m e h)
  · exact fun fc e => ⟨fcMatch_fst fc e, fcMatch_snd_count fc e, fcMatch_snd_filter fc e⟩
  · intro fc es h
    induction es generalizing fc with
    | nil => exact h
    | cons e rest ih =>
      exact ih _ (fcDone_mono_step fc e h)

/-- C5 witness: done-ness is preserved by a concrete counted match on both
matcher flavours. -/
theorem C5_counted_matcher_witness :
    (nostr.runCountMatch { cnt := 1, f := { Limit := some 1 } }
        [sampleNostrEvent]).Done = true ∧
    (relayMain.runFilterCounter
        { Filter := { FilterJSON := { Limit := some 0 } }, count := 0 }
        [sampleMainEvent]).Done = true :=
  ⟨C5_counted_matcher.2.2.1 { cnt := 1, f := { Limit := some 1 } }
      [sampleNostrEvent] (by decide),
   C5_counted_matcher.2.2.2.2.2
      { Filter := { FilterJSON := { Limit := some 0 } }, count := 0 }
      [sampleMainEvent] (by decide)⟩

/-- C6 counterexample: the claim says a name-only event tag satisfies no
tag entry. On an event whose only tag is `["e"]` (no value element), the
nostr matcher's tag predicate nevertheless holds for the entry
`#e -> ["ab"]`, diverging from the predicate as the spec words it. -/
theorem C6_counterexample :
    ¬ (nostr.tagEntryMatch bareTagEvent "#e" ["ab"]
        = specTagEntryMatch "e" ["ab"] bareTagEvent) := by
  decide

/-- C6 (amended): in the nostr matcher a tag entry is satisfied iff some
event tag has the entry's name and either consists of the name alone
(`len(tagArr) == 1`, which satisfies the entry regardless of the listed
values) or has a value beginning with the chosen listed string; in the
package-main `Filter.MatchEtags` a tag needs at least two elements, so a
name-only tag satisfies nothing there. -/
theorem C6_tag_matching :
    (∀ (key : String) (vs : List String) (e : nostr.Event),
        nostr.tagEntryMatch e key vs = true ↔
          ∃ v ∈ vs, ∃ tagArr ∈ e.Tags,
            1 ≤ tagArr.length ∧ tagArr.headD "" = key.drop 1 ∧
              (tagArr.length = 1 ∨ v.isPrefixOf (tagArr.getD 1 "") = true)) ∧
    (∀ (fil : relayMain.Filter) (e : relayMain.EventJSON) (etags : List String),
        fil.FilterJSON.Etags = some etags →
          (relayMain.Filter.MatchEtags fil e = true ↔
            ∃ id ∈ etags, ∃ tag ∈ e.Tags,
              2 ≤ tag.length ∧ tag.headD "" = "e" ∧
                id.isPrefixOf (tag.getD 1 "") = true)) := by
  constructor
  · intro key vs e
    simp [nostr.tagEntryMatch, nostr.tagArrMatch, List.any_eq_true, and_assoc]
  · intro fil e etags hE
    simp [relayMain.Filter.MatchEtags, hE, List.any_eq_true, and_assoc]

/-- C6 witness: the amended characterisations at a concrete filter entry and
event. -/
theorem C6_tag_matching_witness :
    (nostr.tagEntryMatch sampleNostrEvent "#e" ["de"] = true ↔
      ∃ v ∈ ["de"], ∃ tagArr ∈ sampleNostrEvent.Tags,
        1 ≤ tagArr.length ∧ tagArr.headD "" = ("#e" : String).drop 1 ∧
          (tagArr.length = 1 ∨ v.isPrefixOf (tagArr.getD 1 "") = true)) ∧
    (relayMain.Filter.MatchEtags { FilterJSON := { Etags := some ["de"] } }
        sampleMainEvent = true ↔
      ∃ id ∈ ["de"], ∃ tag ∈ sampleMainEvent.Tags,
        2 ≤ tag.length ∧ tag.headD "" = "e" ∧
          id.isPrefixOf (tag.getD 1 "") = true) :=
  ⟨C6_tag_matching.1 "#e" ["de"] sampleNostrEvent,
   C6_tag_matching.2 { FilterJSON := { Etags := some ["de"] } } sampleMainEvent
     ["de"] rfl⟩

theorem newFilter_some_ne_nil (minPfx : Nat) (j : relayMain.FilterJSON) :
    relayMain.reqFilterGo.NewFilter minPfx (some j)
      ≠ .error .nilFilter := by
  unfold relayMain.reqFilterGo.NewFilter
  cases h1 : relayMain.firstShort minPfx j.IDs <;>
    cases h2 : relayMain.firstShort minPfx j.Authors <;>
      cases h3 : relayMain.firstShort minPfx j.Ptags <;>
        cases h4 : relayMain.firstShort minPfx j.Etags <;>
          simp [h1, h2, h3, h4]

theorem collectFilters_spec (minPfx : Nat)
    (jsons : List (Option relayMain.FilterJSON))
    (h : ∀ j ∈ jsons, j ≠ none) :
    relayMain.reqFilterGo.collectFilters minPfx jsons
      = .ok (jsons.filterMap fun j =>
               (relayMain.reqFilterGo.NewFilter minPfx j).toOption,
             jsons.filterMap fun j =>
               match relayMain.reqFilterGo.NewFilter minPfx j with
               | .error e => some e
               | .ok _ => none) := by
  induction jsons with
  | nil => rfl
  | cons j rest ih =>
    have hj : j ≠ none := h j (List.mem_cons_self _ _)
    have hrest : ∀ x ∈ rest, x ≠ none := fun x hx => h x (List.mem_cons_of_mem _ hx)
    obtain ⟨jj, rfl⟩ := Option.ne_none_iff_exists'.mp hj
    cases hnf : relayMain.reqFilterGo.NewFilter minPfx (some jj) with
    | ok fil =>
      simp [relayMain.reqFilterGo.collectFilters, hnf, ih hrest,
        List.filterMap_cons, Except.toOption, Except.map]
    | error e =>
      cases e with
      | nilFilter => exact absurd hnf (newFilter_some_ne_nil minPfx jj)
      | tooShort w n =>
        simp [relayMain.reqFilterGo.collectFilters, hnf, ih hrest,
          List.filterMap_cons, Except.toOption, Except.map]

theorem buildFilters_error (minPfx : Nat)
    (jsons : List (Option relayMain.FilterJSON))
    (h : ∃ j ∈ jsons, ∃ e, relayMain.entityGo.NewFilter minPfx j = .error e) :
    ∃ e, relayMain.entityGo.buildFilters minPfx jsons = .error e := by
  induction jsons with
  | nil => simp at h
  | cons j rest ih =>
    cases hnf : relayMain.entityGo.NewFilter minPfx j with
    | error e => exact ⟨e, by simp [relayMain.entityGo.buildFilters, hnf]⟩
    | ok fil =>
      obtain ⟨j', hj', e', he'⟩ := h
      rcases List.mem_cons.mp hj' with rfl | hj'
      · rw [hnf] at he'; cases he'
      · obtain ⟨e, he⟩ := ih ⟨j', hj', e', he'⟩
        exact ⟨e, by simp [relayMain.entityGo.buildFilters, hnf, he, Except.map]⟩

/-- C7 counterexample: a subscribe list with one too-short-prefix filter and
one valid filter. The entity.go builder - one of the two builders the claim
covers - aborts with the error and returns no filters at all, so the
subscription does not proceed with the remaining valid filter; the
req_filter.go builder does behave as claimed on the same input. -/
theorem C7_counterexample :
    relayMain.entityGo.NewFiltersFromFilterJSONs 4 50
        [some { IDs := some ["ab"], Authors := some ["abcd"] },
         some { Authors := some ["abcd"] }]
      = .error "too short id prefix" ∧
    relayMain.reqFilterGo.NewFiltersFromFilterJSONs 4 50
        [some { IDs := some ["ab"], Authors := some ["abcd"] },
         some { Authors := some ["abcd"] }]
      = .ok ([{ FilterJSON := { Authors := some ["abcd"] } }],
             [.tooShort "ids" 2]) := by
  exact ⟨rfl, rfl⟩

/-- C7 (amended): the req_filter.go builder collects one too-short-prefix
error per offending filter and still returns every valid filter (in order),
as long as the list is within the fatal length cap and has no nil entries;
the entity.go builder instead fails fast - any offending filter anywhere in
the list aborts the construction with an error and no filters. -/
theorem C7_min_prefix_policy :
    (∀ (minPfx maxFilters : Nat) (jsons : List (Option relayMain.FilterJSON)),
        jsons.length ≤ maxFilters + 2 → (∀ j ∈ jsons, j ≠ none) →
        relayMain.reqFilterGo.NewFiltersFromFilterJSONs minPfx maxFilters jsons
          = .ok (jsons.filterMap fun j =>
                   (relayMain.reqFilterGo.NewFilter minPfx j).toOption,
                 jsons.filterMap fun j =>
                   match relayMain.reqFilterGo.NewFilter minPfx j with
                   | .error e => some e
                   | .ok _ => none)) ∧
    (∀ (minPfx maxFilters : Nat) (jsons : List (Option relayMain.FilterJSON)),
        (∃ j ∈ jsons, ∃ e, relayMain.entityGo.NewFilter minPfx j = .error e) →
        ∃ e, relayMain.entityGo.NewFiltersFromFilterJSONs minPfx maxFilters jsons
            = .error e) := by
  constructor
  · intro minPfx maxFilters jsons hlen hsome
    unfold relayMain.reqFilterGo.NewFiltersFromFilterJSONs
    rw [if_neg (by omega)]
    exact collectFilters_spec minPfx jsons hsome
  · intro minPfx maxFilters jsons hex
    unfold relayMain.entityGo.NewFiltersFromFilterJSONs
    by_cases hlen : jsons.length > maxFilters + 2
    · exact ⟨"filter is too long", by rw [if_pos hlen]⟩
    · rw [if_neg hlen]
      exact buildFilters_error minPfx jsons hex

/-- C7 witness: both amended behaviours at a concrete two-filter subscribe
list. -/
theorem C7_min_prefix_policy_witness :
    relayMain.reqFilterGo.NewFiltersFromFilterJSONs 4 50
        [some { IDs := some ["ab"] }, some { Authors := some ["abcd"] }]
      = .ok ([{ FilterJSON := { Authors := some ["abcd"] } }],
             [.tooShort "ids" 2]) ∧
    ∃ e, relayMain.entityGo.NewFiltersFromFilterJSONs 4 50
        [some { IDs := some ["ab"] }, some { Authors := some ["abcd"] }]
      = .error e :=
  ⟨C7_min_prefix_policy.1 4 50
      [some { IDs := some ["ab"] }, some { Authors := some ["abcd"] }]
      (by decide) (by decide),
   C7_min_prefix_policy.2 4 50
      [some { IDs := some ["ab"] }, some { Authors := some ["abcd"] }]
      ⟨some { IDs := some ["ab"] }, List.mem_cons_self _ _,
        "too short id prefix", rfl⟩⟩

theorem exceptBind_ok {α β : Type} {x : Except String α} {f : α → Except String β}
    {b : β} (h : (x >>= f) = .ok b) : ∃ a, x = .ok a ∧ f a = .ok b := by
  cases x with
  | error e => simp [Bind.bind, Except.bind] at h
  | ok a => exact ⟨a, rfl, by simpa [Bind.bind, Except.bind] using h⟩

theorem getField_ok {obj : List (String × Json.Value)} {k msg : String}
    {v : Json.Value} (h : mocrelay.getField obj k msg = .ok v) :
    Json.lookupKey obj k = some v := by
  unfold mocrelay.getField at h
  cases hl : Json.lookupKey obj k with
  | none => rw [hl] at h; cases h
  | some w =>
    rw [hl] at h
    simp only [Except.ok.injEq] at h
    rw [h]

theorem lookupKey_some_mem {fields : List (String × Json.Value)} {k : String}
    {v : Json.Value} (h : Json.lookupKey fields k = some v) :
    k ∈ fields.map Prod.fst := by
  unfold Json.lookupKey at h
  cases hf : fields.find? (fun p => p.1 == k) with
  | none => rw [hf] at h; cases h
  | some p =>
    have hpk : p.1 = k := by simpa using List.find?_some hf
    have hmem := List.mem_of_find?_eq_some hf
    rw [← hpk]
    exact List.mem_map_of_mem Prod.fst hmem

theorem unmarshalJSON_ok_keys {fields : List (String × Json.Value)}
    {ev : mocrelay.Event} (_hnd : (fields.map Prod.fst).Nodup)
    (h : mocrelay.Event.UnmarshalJSON (.obj fields) = .ok ev) :
    (fields.map Prod.fst).Perm sevenEventKeys := by
  simp only [mocrelay.Event.UnmarshalJSON] at h
  by_cases hlen : fields.length ≠ 7
  · rw [if_pos hlen] at h; cases h
  · rw [if_neg hlen] at h
    push_neg at hlen
    obtain ⟨idv, hid, h⟩ := exceptBind_ok h
    obtain ⟨id, _, h⟩ := exceptBind_ok h
    obtain ⟨pkv, hpk, h⟩ := exceptBind_ok h
    obtain ⟨pubkey, _, h⟩ := exceptBind_ok h
    obtain ⟨cav, hca, h⟩ := exceptBind_ok h
    obtain ⟨createdAt, _, h⟩ := exceptBind_ok h
    obtain ⟨kv, hki, h⟩ := exceptBind_ok h
    obtain ⟨kind, _, h⟩ := exceptBind_ok h
    obtain ⟨tv, hta, h⟩ := exceptBind_ok h
    obtain ⟨tags, _, h⟩ := exceptBind_ok h
    obtain ⟨cv, hco, h⟩ := exceptBind_ok h
    obtain ⟨content, _, h⟩ := exceptBind_ok h
    obtain ⟨sv, hsi, _⟩ := exceptBind_ok h
    have m1 := lookupKey_some_mem (getField_ok hid)
    have m2 := lookupKey_some_mem (getField_ok hpk)
    have m3 := lookupKey_some_mem (getField_ok hca)
    have m4 := lookupKey_some_mem (getField_ok hki)
    have m5 := lookupKey_some_mem (getField_ok hta)
    have m6 := lookupKey_some_mem (getField_ok hco)
    have m7 := lookupKey_some_mem (getField_ok hsi)
    have hsub : sevenEventKeys ⊆ fields.map Prod.fst := by
      intro k hk
      simp only [sevenEventKeys, List.mem_cons, List.not_mem_nil, or_false] at hk
      rcases hk with rfl | rfl | rfl | rfl | rfl | rfl | rfl <;> assumption
    have hsp := List.Nodup.subperm (by decide) hsub
    exact (hsp.perm_of_length_le (by simp [sevenEventKeys, hlen])).symm

theorem lookupKey_append_ne (fields : List (String × Json.Value)) (key : String)
    (v : Json.Value) (k : String) (h : k ≠ key) :
    Json.lookupKey (fields ++ [(key, v)]) k = Json.lookupKey fields k := by
  unfold Json.lookupKey
  rw [List.find?_append]
  have h2 : List.find? (fun p => p.1 == k) [(key, v)] = none := by
    simp [Ne.symm h]
  rw [h2]
  cases fields.find? (fun p => p.1 == k) <;> simp

theorem parseEventJSON_ignores_unknown (fields : List (String × Json.Value))
    (key : String) (v : Json.Value) (hk : key ∉ sevenEventKeys) :
    relayMain.ParseEventJSON (.obj (fields ++ [(key, v)]))
      = relayMain.ParseEventJSON (.obj fields) := by
  simp only [sevenEventKeys, List.mem_cons, List.not_mem_nil, or_false, not_or] at hk
  obtain ⟨n1, n2, n3, n4, n5, n6, n7⟩ := hk
  rw [relayMain.ParseEventJSON, relayMain.ParseEventJSON,
    lookupKey_append_ne fields key v "id" (fun h => n1 h.symm),
    lookupKey_append_ne fields key v "pubkey" (fun h => n2 h.symm),
    lookupKey_append_ne fields key v "created_at" (fun h => n3 h.symm),
    lookupKey_append_ne fields key v "kind" (fun h => n4 h.symm),
    lookupKey_append_ne fields key v "tags" (fun h => n5 h.symm),
    lookupKey_append_ne fields key v "content" (fun h => n6 h.symm),
    lookupKey_append_ne fields key v "sig" (fun h => n7 h.symm)]

/-- C8 counterexample: the seven-field event object extended with the
unknown member `"powa": "meu"`. The jsoniter-based `ParseEventJSON` - one of
the two event parsers the claim covers - accepts it, so not every event
parser rejects unknown fields; the strict `Event.UnmarshalJSON` does reject
it. -/
theorem C8_counterexample :
    relayMain.ParseEventJSON eightFieldEventObj
      = .ok { ID := "ab", Pubkey := "cd", CreatedAt := 1693157791, Kind := 1,
              Tags := [["e", "dead"]], Content := "powa", Sig := "ff" } ∧
    mocrelay.Event.UnmarshalJSON eightFieldEventObj
      = .error "contains some extra fields" := by
  exact ⟨rfl, rfl⟩

/-- C8 (amended): the strict `Event.UnmarshalJSON` (package mocrelay)
succeeds only when the object's key set is exactly the seven event fields;
the jsoniter-based `ParseEventJSON` (package main) ignores unknown fields
entirely - appending an unknown member never changes its result, so objects
with extra fields are accepted whenever the seven-field core parses. -/
theorem C8_event_field_policy :
    (∀ (fields : List (String × Json.Value)) (ev : mocrelay.Event),
        (fields.map Prod.fst).Nodup →
        mocrelay.Event.UnmarshalJSON (.obj fields) = .ok ev →
        (fields.map Prod.fst).Perm sevenEventKeys) ∧
    (∀ (fields : List (String × Json.Value)) (key : String) (v : Json.Value),
        key ∉ sevenEventKeys →
        relayMain.ParseEventJSON (.obj (fields ++ [(key, v)]))
          = relayMain.ParseEventJSON (.obj fields)) :=
  ⟨fun _ _ => unmarshalJSON_ok_keys, parseEventJSON_ignores_unknown⟩

/-- C8 witness: the amended policies applied to the concrete seven-field
object and the unknown member `"powa"`. -/
theorem C8_event_field_policy_witness :
    (sevenEventFields.map Prod.fst).Perm sevenEventKeys ∧
    relayMain.ParseEventJSON (.obj (sevenEventFields ++ [("powa", .str "meu")]))
      = relayMain.ParseEventJSON (.obj sevenEventFields) :=
  ⟨C8_event_field_policy.1 sevenEventFields
      { ID := "ab", Pubkey := "cd", CreatedAt := 1693157791, Kind := 1,
        Tags := some [["e", "dead"]], Content := "powa", Sig := "ff" }
      (by decide) rfl,
   C8_event_field_policy.2 sevenEventFields "powa" (.str "meu") (by decide)⟩


theorem find?_isSome_false_not_mem {K V : Type} [DecidableEq K]
    {c : List (K × V)} {k : K}
    (h : (c.find? fun p => p.1 == k).isSome = false) : k ∉ c.map Prod.fst := by
  intro hmem
  obtain ⟨p, hp, hpk⟩ := List.mem_map.mp hmem
  have hnone : (c.find? fun p => p.1 == k) = none := by
    cases hf : c.find? fun p => p.1 == k with
    | none => rfl
    | some q => rw [hf] at h; cases h
  have := List.find?_eq_none.mp hnone p hp
  simp [hpk] at this

theorem randCache_set_present {K V : Type} [DecidableEq K]
    {cache : mocrelay.randCache K V} {k : K} {v : V}
    {pick : List (K × V) → Option K}
    (hf : (cache.c.find? fun p => p.1 == k).isSome = true) :
    cache.Set k v pick = (false, cache) := by
  unfold mocrelay.randCache.Set
  rw [if_pos hf]

theorem randCache_set_absent {K V : Type} [DecidableEq K]
    {cache : mocrelay.randCache K V} {k : K} {v : V}
    {pick : List (K × V) → Option K}
    (hf : (cache.c.find? fun p => p.1 == k).isSome = false) :
    cache.Set k v pick
      = (true, { cache with c :=
          (if cache.Cap ≤ cache.c.length then
            match pick cache.c with
            | some victim => cache.c.eraseP fun p => p.1 == victim
            | none => cache.c
          else cache.c) ++ [(k, v)] }) := by
  unfold mocrelay.randCache.Set
  rw [if_neg (by simp [hf])]

theorem randCache_set_Cap {K V : Type} [DecidableEq K]
    (cache : mocrelay.randCache K V) (k : K) (v : V)
    (pick : List (K × V) → Option K) :
    (cache.Set k v pick).2.Cap = cache.Cap := by
  cases hf : (cache.c.find? fun p => p.1 == k).isSome with
  | true => rw [randCache_set_present hf]
  | false => rw [randCache_set_absent hf]

theorem randCache_set_inv {K V : Type} [DecidableEq K]
    (pick : List (K × V) → Option K)
    (hpick : ∀ l : List (K × V), l ≠ [] → ∃ p ∈ l, pick l = some p.1)
    (cache : mocrelay.randCache K V) (k : K) (v : V)
    (hCap : 1 ≤ cache.Cap) (hlen : cache.c.length ≤ cache.Cap)
    (hnd : (cache.c.map Prod.fst).Nodup) :
    (cache.Set k v pick).2.c.length ≤ cache.Cap ∧
      ((cache.Set k v pick).2.c.map Prod.fst).Nodup := by
  cases hf : (cache.c.find? fun p => p.1 == k).isSome with
  | true =>
    rw [randCache_set_present hf]
    exact ⟨hlen, hnd⟩
  | false =>
    have hkmem : k ∉ cache.c.map Prod.fst := find?_isSome_false_not_mem hf
    rw [randCache_set_absent hf]
    by_cases hcap : cache.Cap ≤ cache.c.length
    · have hne : cache.c ≠ [] := by
        intro hnil
        rw [hnil] at hcap
        simp at hcap
        omega
      obtain ⟨p, hp, hpk⟩ := hpick cache.c hne
      rw [if_pos hcap, hpk]
      have herase : (cache.c.eraseP fun q => q.1 == p.1).length
          = cache.c.length - 1 :=
        List.length_eraseP_of_mem hp (by simp)
      have hsub : List.Sublist
          ((cache.c.eraseP fun q => q.1 == p.1).map Prod.fst)
          (cache.c.map Prod.fst) :=
        (List.eraseP_sublist _).map Prod.fst
      have hnonempty : 1 ≤ cache.c.length := by
        cases hc : cache.c with
        | nil => exact absurd hc hne
        | cons a l => simp [hc]
      constructor
      · simp only [List.length_append, herase, List.length_cons, List.length_nil]
        omega
      · rw [List.map_append]
        refine List.Nodup.append (hnd.sublist hsub) (List.nodup_singleton k) ?_
        intro a ha hb
        simp only [List.map_cons, List.map_nil, List.mem_singleton] at hb
        subst hb
        exact hkmem (hsub.subset ha)
    · rw [if_neg hcap]
      constructor
      · simp only [List.length_append, List.length_cons, List.length_nil]
        omega
      · rw [List.map_append]
        refine List.Nodup.append hnd (List.nodup_singleton k) ?_
        intro a ha hb
        simp only [List.map_cons, List.map_nil, List.mem_singleton] at hb
        subst hb
        exact hkmem ha

theorem randCache_run_Cap {K V : Type} [DecidableEq K]
    (pick : List (K × V) → Option K) (ops : List (mocrelay.CacheOp K V)) :
    ∀ cache : mocrelay.randCache K V,
      (mocrelay.randCache.run pick cache ops).Cap = cache.Cap := by
  induction ops with
  | nil => intro cache; rfl
  | cons op rest ih =>
    intro cache
    cases op with
    | get k => exact ih cache
    | set k v =>
      show (mocrelay.randCache.run pick (cache.Set k v pick).2 rest).Cap = cache.Cap
      rw [ih, randCache_set_Cap]

theorem randCache_run_inv {K V : Type} [DecidableEq K]
    (pick : List (K × V) → Option K)
    (hpick : ∀ l : List (K × V), l ≠ [] → ∃ p ∈ l, pick l = some p.1)
    (ops : List (mocrelay.CacheOp K V)) :
    ∀ cache : mocrelay.randCache K V, 1 ≤ cache.Cap →
      cache.c.length ≤ cache.Cap → (cache.c.map Prod.fst).Nodup →
      (mocrelay.randCache.run pick cache ops).c.length ≤ cache.Cap := by
  induction ops with
  | nil => exact fun cache _ hlen _ => hlen
  | cons op rest ih =>
    intro cache hCap hlen hnd
    cases op with
    | get k => exact ih cache hCap hlen hnd
    | set k v =>
      obtain ⟨h1, h2⟩ := randCache_set_inv pick hpick cache k v hCap hlen hnd
      have hc := randCache_set_Cap cache k v pick
      show (mocrelay.randCache.run pick (cache.Set k v pick).2 rest).c.length
        ≤ cache.Cap
      rw [← hc]
      exact ih _ (hc ▸ hCap) (hc ▸ h1) h2

/-- C9: starting from an empty random-evict cache of any capacity at least
one, no sequence of `Set` and `Get` operations pushes the number of stored
entries above the capacity (the random victim choice is the oracle `pick`,
constrained to return some present key exactly as Go map iteration does);
and `Set` on an already-present key reports `false` and returns the cache
entirely unchanged - no overwrite, no eviction. -/
theorem C9_randCache_bound :
    (∀ (K V : Type) [DecidableEq K] (pick : List (K × V) → Option K),
        (∀ l : List (K × V), l ≠ [] → ∃ p ∈ l, pick l = some p.1) →
        ∀ Cap : Nat, 1 ≤ Cap →
        ∀ ops : List (mocrelay.CacheOp K V),
          (mocrelay.randCache.run pick (mocrelay.newRandCache K V Cap) ops).c.length
            ≤ Cap) ∧
    (∀ (K V : Type) [DecidableEq K] (cache : mocrelay.randCache K V) (k : K)
        (v : V) (pick : List (K × V) → Option K),
        (cache.c.find? fun p => p.1 == k).isSome = true →
        cache.Set k v pick = (false, cache)) := by
  constructor
  · intro K V _ pick hpick Cap hCap ops
    exact randCache_run_inv pick hpick ops (mocrelay.newRandCache K V Cap)
      hCap (by simp [mocrelay.newRandCache]) (by simp [mocrelay.newRandCache])
  · intro K V _ cache k v pick hf
    exact randCache_set_present hf

/-- C9 witness: the bound on a concrete capacity-1 run that forces an
eviction, and the no-overwrite behaviour on a concrete present key. -/
theorem C9_randCache_bound_witness :
    (mocrelay.randCache.run (fun l => l.head?.map Prod.fst)
        (mocrelay.newRandCache Nat Nat 1)
        [.set 1 10, .set 2 20, .get 2]).c.length ≤ 1 ∧
    mocrelay.randCache.Set { Cap := 1, c := [(5, 7)] } 5 9
        (fun l => l.head?.map Prod.fst)
      = (false, { Cap := 1, c := [(5, 7)] }) :=
  ⟨C9_randCache_bound.1 Nat Nat (fun l => l.head?.map Prod.fst)
      (fun l hl =>
        match l, hl with
        | p :: _, _ => ⟨p, List.mem_cons_self _ _, rfl⟩
        | [], h => absurd rfl h)
      1 (by decide) [.set 1 10, .set 2 20, .get 2],
   C9_randCache_bound.2 Nat Nat { Cap := 1, c := [(5, 7)] } 5 9
      (fun l => l.head?.map Prod.fst) (by decide)⟩

/-- C10: concrete sequential run of the skip list over `Int` keys with
`cmp a b = a - b` (zero values 0, as in Go). `Add 0 42` (height 1) succeeds
and `Len` becomes 1, but `Find 0` then returns `(0, false)`: after the
level-15 walk the cursor still sits on the head sentinel, whose zero-valued
key compares equal to 0, and the `node == l.Head` guard returns the zero
results instead of descending further. The claim's `Find`-after-`Add`
guarantee fails on this input; a key that is not cmp-equal to the sentinel's
zero key (here 7) is found normally, and `Delete` restores `Len` to 0. -/
theorem C10_skipList_zero_key_bug :
    ((mocrelay.newSkipList (fun a b : Int => a - b) 0 0).Add 0 42 1 100).map
        (fun r => (r.1, r.2.Len)) = some (true, 1) ∧
    (((mocrelay.newSkipList (fun a b : Int => a - b) 0 0).Add 0 42 1 100).bind
        fun r => r.2.Find 0 0 100) = some (0, false) ∧
    (((mocrelay.newSkipList (fun a b : Int => a - b) 0 0).Add 7 99 1 100).bind
        fun r => r.2.Find 7 0 100) = some (99, true) ∧
    (((mocrelay.newSkipList (fun a b : Int => a - b) 0 0).Add 0 42 1 100).bind
        fun r => (r.2.Delete 0 100).map fun d => (d.1, d.2.Len))
      = some (true, 0) := by
  exact ⟨rfl, rfl, rfl, rfl⟩
